import Mathlib

/-!
Shallow embedding of `src/baddoctor.py`, a single-file tool that scans the
pages of an uploaded PDF for keyword/regex matches and exports matching pages.

The PDF container library (pypdf) and the OCR toolchain (pdf2image,
pytesseract) are external collaborators: their per-page behaviour is recorded
as data on each page (`Except.error ()` models a raised exception), and
well-formed document bytes are identified with their parse.  Regular
expressions are modelled at the literal-pattern level: a compiled
case-insensitive pattern is a literal string matched as a case-insensitive
substring, which is the fragment of `re` the program's default pattern and the
spec's "case-insensitive substring/regex search" exercise.
-/

namespace BadDoctor

deriving instance DecidableEq for Except

/-- Raw bytes of a rendered preview image, modelled as a list of byte values. -/
abbrev Bytes := List Nat

/-- One page of a parsed PDF together with the behaviour of the external
libraries on it: `extract_text` is the result of pypdf's
`page.extract_text()` (`Except.error ()` models a raised exception,
`Except.ok none` a `None` return); `ocr_text` is the joined result of the
`convert_from_bytes` + `pytesseract.image_to_string` pipeline on this page at
the scan resolution; `images` is the result of `convert_from_bytes` at the
preview resolution followed by PNG-encoding each returned image. -/
structure Page where
  extract_text : Except Unit (Option String)
  ocr_text : Except Unit String
  images : Except Unit (List Bytes)
deriving DecidableEq

/-- A parsed PDF document: the page sequence of
`PdfReader(io.BytesIO(pdf_bytes))`. -/
structure PdfDocument where
  pages : List Page
deriving DecidableEq

/-- Case-insensitive character comparison, modelling `re.IGNORECASE`
(Python's case folding restricted to `Char.toLower`). -/
def charEqIC (a b : Char) : Bool := a.toLower == b.toLower

/-- Does `pat` occur at the head of the text, case-insensitively? -/
def isPrefixIC : List Char → List Char → Bool
  | [], _ => true
  | _ :: _, [] => false
  | p :: ps, c :: cs => charEqIC p c && isPrefixIC ps cs

/-- Does `pat` occur anywhere in the text, case-insensitively?  The empty
pattern occurs in every text, as in `re.search`. -/
def occursIC (pat : List Char) : List Char → Bool
  | [] => pat.isEmpty
  | c :: cs => isPrefixIC pat (c :: cs) || occursIC pat cs

/-- Models `re.compile(p, flags=re.IGNORECASE).search(text) is not None` for a
pattern `p` without regex metacharacters: case-insensitive literal substring
search. -/
def re_search (p : String) (text : String) : Bool := occursIC p.toList text.toList

/-- Models `any(c.search(text) for c in compiled)` where `compiled` is the
list of patterns compiled with `re.IGNORECASE`. -/
def searchAny (patterns : List String) (text : String) : Bool :=
  patterns.any (fun p => re_search p text)

/-- The `for i, page in enumerate(reader.pages)` loop of
`find_pages_with_keywords`, scanning `pages` with the enumeration starting at
index `i`.  Per page: `text = page.extract_text() or ""` (an exception here is
not caught and propagates); if any pattern matches `text` the index is
recorded and the loop continues; otherwise, if `use_ocr and OCR_AVAILABLE`,
the OCR pipeline runs inside `try/except Exception: pass` and the index is
recorded when a pattern matches the OCR text.  Recording index `i` before
scanning the rest is rendered as consing `i` onto the hits of the rest, which
is observably identical because a later exception discards the partial list. -/
def scanFrom (patterns : List String) (use_ocr OCR_AVAILABLE : Bool) :
    Nat → List Page → Except Unit (List Nat)
  | _, [] => Except.ok []
  | i, page :: rest =>
    match page.extract_text with
    | Except.error e => Except.error e
    | Except.ok t =>
      let text := t.getD ""
      if searchAny patterns text then
        match scanFrom patterns use_ocr OCR_AVAILABLE (i + 1) rest with
        | Except.error e => Except.error e
        | Except.ok hits => Except.ok (i :: hits)
      else if use_ocr && OCR_AVAILABLE then
        match page.ocr_text with
        | Except.error _ => scanFrom patterns use_ocr OCR_AVAILABLE (i + 1) rest
        | Except.ok ocr_text =>
          if searchAny patterns ocr_text then
            match scanFrom patterns use_ocr OCR_AVAILABLE (i + 1) rest with
            | Except.error e => Except.error e
            | Except.ok hits => Except.ok (i :: hits)
          else scanFrom patterns use_ocr OCR_AVAILABLE (i + 1) rest
      else scanFrom patterns use_ocr OCR_AVAILABLE (i + 1) rest

/-- Models `find_pages_with_keywords(pdf_bytes, patterns, use_ocr, ...)`.
`OCR_AVAILABLE` is the module-level flag set by the import probe, passed
explicitly.  The `ocr_lang` and `dpi` arguments only parametrise the external
OCR pipeline and are absorbed into each page's recorded `ocr_text`. -/
def find_pages_with_keywords (doc : PdfDocument) (patterns : List String)
    (use_ocr OCR_AVAILABLE : Bool) : Except Unit (List Nat) :=
  scanFrom patterns use_ocr OCR_AVAILABLE 0 doc.pages

/-- Did a computation modelled with `Except` finish without raising? -/
def okE {α : Type} : Except Unit α → Bool
  | Except.ok _ => true
  | Except.error _ => false

/-- The per-page decision of the scan loop, for a page whose native
extraction does not raise: the page is recorded iff some pattern matches the
native text, or OCR is enabled and available, the OCR pipeline does not raise,
and some pattern matches the OCR text. -/
def pageHitB (patterns : List String) (use_ocr OCR_AVAILABLE : Bool)
    (page : Page) : Bool :=
  match page.extract_text with
  | Except.error _ => false
  | Except.ok t =>
    if searchAny patterns (t.getD "") then true
    else if use_ocr && OCR_AVAILABLE then
      match page.ocr_text with
      | Except.error _ => false
      | Except.ok s => searchAny patterns s
    else false

/-- Models `extract_page_text(pdf_bytes, page_index, use_ocr, ...)`:
`txt = page.extract_text() or ""` (indexing error and extraction exception
propagate), then, when `use_ocr and OCR_AVAILABLE`, `txt` is overwritten by
the OCR pipeline's output inside `try/except Exception: pass`. -/
def extract_page_text (doc : PdfDocument) (page_index : Nat)
    (use_ocr OCR_AVAILABLE : Bool) : Except Unit String :=
  match doc.pages.get? page_index with
  | none => Except.error ()
  | some page =>
    match page.extract_text with
    | Except.error e => Except.error e
    | Except.ok t =>
      let txt := t.getD ""
      if use_ocr && OCR_AVAILABLE then
        match page.ocr_text with
        | Except.error _ => Except.ok txt
        | Except.ok s => Except.ok s
      else Except.ok txt

/-- Models `page_image_bytes(pdf_bytes, page_index, dpi)`: returns `b""` when
the OCR toolchain is unavailable; otherwise rasterizes with no exception
handling, so a rasterization failure — and the `images[0]` IndexError when the
converter returns no image (e.g. the index is out of range) — propagates. -/
def page_image_bytes (doc : PdfDocument) (page_index : Nat)
    (OCR_AVAILABLE : Bool) : Except Unit Bytes :=
  if !OCR_AVAILABLE then Except.ok []
  else
    match doc.pages.get? page_index with
    | none => Except.error ()
    | some page =>
      match page.images with
      | Except.error e => Except.error e
      | Except.ok [] => Except.error ()
      | Except.ok (b :: _) => Except.ok b

/-- Models `export_single_page_pdf(pdf_bytes, page_index)`:
`reader.pages[page_index]` raises on an out-of-range index; otherwise the page
is added to a fresh `PdfWriter` and written out.  Per the container library's
interface contract (spec §6: `write(single page) -> bytes`, `read(bytes) ->
page sequence`), writing a single page and re-reading the produced bytes
yields a one-page document carrying that page's content, so the write/read
round trip is identified with building the one-page document directly. -/
def export_single_page_pdf (doc : PdfDocument) (page_index : Nat) :
    Except Unit PdfDocument :=
  match doc.pages.get? page_index with
  | none => Except.error ()
  | some page => Except.ok (PdfDocument.mk [page])

/-- The emphasis wrapper of `highlight_html`: the replacement
`"<mark>" + m.group(0) + "</mark>"` applied to a matched span. -/
def markText (s : List Char) : List Char :=
  "<mark>".toList ++ s ++ "</mark>".toList

/-- Models `re.sub(pat, lambda m: "<mark>" + m.group(0) + "</mark>", s,
flags=re.IGNORECASE)` for a literal pattern: every leftmost non-overlapping
case-insensitive occurrence of `pat` is wrapped in the emphasis marker; the
empty pattern matches at every position, as in `re.sub`. -/
def subAllIC (pat : List Char) : List Char → List Char
  | [] => if pat.isEmpty then markText [] else []
  | c :: cs =>
    if isPrefixIC pat (c :: cs) then
      match pat with
      | [] => markText [] ++ c :: subAllIC [] cs
      | _ :: tl =>
        markText ((c :: cs).take pat.length) ++ subAllIC pat (cs.drop tl.length)
    else c :: subAllIC pat cs
  termination_by s => s.length
  decreasing_by
    all_goals simp only [List.length_drop, List.length_cons]
    all_goals omega

/-- String-level wrapper for one `re.sub` pass of `highlight_html`. -/
def re_sub_mark (pat : String) (s : String) : String :=
  String.mk (subAllIC pat.toList s.toList)

/-- Models `highlight_html(text, patterns)`: starting from `text`, each
pattern in list order rewrites the current markup via `re.sub`, and the final
result has every newline replaced by `"<br/>"`. -/
def highlight_html (text : String) (patterns : List String) : String :=
  (patterns.foldl (fun html pat => re_sub_mark pat html) text).replace "\n" "<br/>"

/-- Splits a character sequence at newline characters, modelling
`str.splitlines()` up to a possible trailing empty segment, which the
emptiness filter of `parse_patterns` removes anyway. -/
def splitNL (acc : List Char) : List Char → List (List Char)
  | [] => [acc.reverse]
  | c :: cs =>
    if c = '\n' then acc.reverse :: splitNL [] cs else splitNL (c :: acc) cs

/-- Models `p.strip()`: removes leading and trailing whitespace. -/
def stripChars (l : List Char) : List Char :=
  ((l.dropWhile Char.isWhitespace).reverse.dropWhile Char.isWhitespace).reverse

/-- Models `patterns = [p.strip() for p in (pattern_text or "").splitlines()
if p.strip()]` in the submitted handler. -/
def parse_patterns (pattern_text : String) : List String :=
  ((splitNL [] pattern_text.toList).map (fun l => String.mk (stripChars l))).filter
    (fun p => p ≠ "")

/-- Outcome of the `if submitted:` handler, up to and including the scan:
missing-file error (`st.error` + `st.stop`), empty-pattern-set error
(`st.error` + `st.stop`), or a performed scan with the parsed patterns. -/
inductive SubmitOutcome where
  | errorNoFile
  | errorNoPatterns
  | ran (patterns : List String) (result : Except Unit (List Nat))
deriving DecidableEq

/-- Models the `if submitted:` handler of the form (lines 92-106): stop with
an error when no file is uploaded; parse the pattern text; stop with an error
when the parsed pattern list is empty; otherwise run
`find_pages_with_keywords`. -/
def submitted (file : Option PdfDocument) (pattern_text : String)
    (use_ocr OCR_AVAILABLE : Bool) : SubmitOutcome :=
  match file with
  | none => SubmitOutcome.errorNoFile
  | some doc =>
    let patterns := parse_patterns pattern_text
    if patterns.isEmpty then SubmitOutcome.errorNoPatterns
    else SubmitOutcome.ran patterns (find_pages_with_keywords doc patterns use_ocr OCR_AVAILABLE)

/-- One entry of `st.session_state.page_files` (lines 114-121): the exported
single-page PDF, the page text, and the preview image —
`page_image_bytes(...) if OCR_AVAILABLE else None`. -/
structure PageArtifacts where
  pdf : Except Unit PdfDocument
  text : Except Unit String
  img : Option (Except Unit Bytes)
deriving DecidableEq

/-- Builds the artifact bundle stored for one hit page `p`. -/
def page_files_entry (doc : PdfDocument) (p : Nat)
    (use_ocr OCR_AVAILABLE : Bool) : PageArtifacts :=
  { pdf := export_single_page_pdf doc p
    text := extract_page_text doc p use_ocr OCR_AVAILABLE
    img := if OCR_AVAILABLE then some (page_image_bytes doc p OCR_AVAILABLE) else none }

/-- Concrete page with native text, empty OCR output, and a preview image. -/
def pageA : Page :=
  { extract_text := Except.ok (some "hello world")
    ocr_text := Except.ok ""
    images := Except.ok [[137, 80, 78, 71]] }

/-- Concrete page whose OCR pipeline raises and whose converter returns no
image. -/
def pageB : Page :=
  { extract_text := Except.ok (some "abc")
    ocr_text := Except.error ()
    images := Except.ok [] }

/-- Concrete malformed page: native extraction raises, rasterization raises. -/
def pageBad : Page :=
  { extract_text := Except.error ()
    ocr_text := Except.ok "x"
    images := Except.error () }

/-- Concrete well-formed two-page document. -/
def docW : PdfDocument := ⟨[pageA, pageB]⟩

/-- Concrete document whose first page is malformed and whose second page's
native text contains "hello". -/
def docBad : PdfDocument := ⟨[pageBad, pageA]⟩

/-- Case-sensitive occurrence of a character sequence inside another,
used to observe the emphasis marker in highlighting output. -/
def containsSeq (pat : List Char) : List Char → Bool
  | [] => pat.isEmpty
  | c :: cs => pat.isPrefixOf (c :: cs) || containsSeq pat cs

/-!  Helper lemmas about the scan loop.  -/

/-- The scan loop on a non-empty page list, reshaped through the per-page
decision `pageHitB`. -/
theorem scanFrom_cons (patterns : List String) (uo av : Bool) (i : Nat)
    (page : Page) (rest : List Page) :
    scanFrom patterns uo av i (page :: rest) =
      match page.extract_text with
      | Except.error e => Except.error e
      | Except.ok _ =>
        match scanFrom patterns uo av (i + 1) rest with
        | Except.error e => Except.error e
        | Except.ok hits =>
          Except.ok (if pageHitB patterns uo av page then i :: hits else hits) := by
  cases hext : page.extract_text with
  | error e => simp [scanFrom, hext]
  | ok t =>
    by_cases hnat : searchAny patterns (t.getD "")
    · cases hrec : scanFrom patterns uo av (i + 1) rest <;>
        simp [scanFrom, pageHitB, hext, hnat, hrec]
    · cases hoa : uo && av
      · cases hrec : scanFrom patterns uo av (i + 1) rest <;>
          simp [scanFrom, pageHitB, hext, hnat, hoa, hrec]
      · cases hocr : page.ocr_text with
        | error e2 =>
          cases hrec : scanFrom patterns uo av (i + 1) rest <;>
            simp [scanFrom, pageHitB, hext, hnat, hoa, hocr, hrec]
        | ok s =>
          by_cases hs : searchAny patterns s <;>
            cases hrec : scanFrom patterns uo av (i + 1) rest <;>
              simp [scanFrom, pageHitB, hext, hnat, hoa, hocr, hs, hrec]

/-- Every index recorded while scanning from enumeration index `i` lies in
the half-open window of the scanned pages. -/
theorem scanFrom_bounds (patterns : List String) (uo av : Bool) :
    ∀ (pages : List Page) (i : Nat) (hits : List Nat),
      scanFrom patterns uo av i pages = Except.ok hits →
      ∀ j ∈ hits, i ≤ j ∧ j < i + pages.length := by
  intro pages
  induction pages with
  | nil =>
    intro i hits h j hj
    simp only [scanFrom, Except.ok.injEq] at h
    subst h
    simp at hj
  | cons page rest ih =>
    intro i hits h j hj
    rw [scanFrom_cons] at h
    cases hext : page.extract_text with
    | error e => rw [hext] at h; cases h
    | ok t =>
      rw [hext] at h
      cases hrec : scanFrom patterns uo av (i + 1) rest with
      | error e => rw [hrec] at h; cases h
      | ok hits2 =>
        rw [hrec] at h
        have hh := Except.ok.inj h
        by_cases hp : pageHitB patterns uo av page
        · rw [if_pos hp] at hh
          subst hh
          rcases List.mem_cons.mp hj with hji | hji
          · subst hji; simp only [List.length_cons]; omega
          · have := ih (i + 1) hits2 hrec j hji
            simp only [List.length_cons]
            omega
        · rw [if_neg hp] at hh
          subst hh
          have := ih (i + 1) hits2 hrec j hj
          simp only [List.length_cons]
          omega

/-- The recorded indices are strictly ascending. -/
theorem scanFrom_sorted (patterns : List String) (uo av : Bool) :
    ∀ (pages : List Page) (i : Nat) (hits : List Nat),
      scanFrom patterns uo av i pages = Except.ok hits →
      hits.Pairwise (· < ·) := by
  intro pages
  induction pages with
  | nil =>
    intro i hits h
    simp only [scanFrom, Except.ok.injEq] at h
    subst h
    exact List.Pairwise.nil
  | cons page rest ih =>
    intro i hits h
    rw [scanFrom_cons] at h
    cases hext : page.extract_text with
    | error e => rw [hext] at h; cases h
    | ok t =>
      rw [hext] at h
      cases hrec : scanFrom patterns uo av (i + 1) rest with
      | error e => rw [hrec] at h; cases h
      | ok hits2 =>
        rw [hrec] at h
        have hh := Except.ok.inj h
        by_cases hp : pageHitB patterns uo av page
        · rw [if_pos hp] at hh
          subst hh
          refine List.Pairwise.cons ?_ (ih (i + 1) hits2 hrec)
          intro x hx
          have := scanFrom_bounds patterns uo av rest (i + 1) hits2 hrec x hx
          omega
        · rw [if_neg hp] at hh
          subst hh
          exact ih (i + 1) hits2 hrec

/-- Membership characterisation of the scan result: index `i + k` is
recorded exactly when the `k`-th scanned page passes the per-page decision. -/
theorem scanFrom_mem (patterns : List String) (uo av : Bool) :
    ∀ (pages : List Page) (i : Nat) (hits : List Nat),
      scanFrom patterns uo av i pages = Except.ok hits →
      ∀ j, j ∈ hits ↔
        ∃ k pg, pages.get? k = some pg ∧ j = i + k ∧
          pageHitB patterns uo av pg = true := by
  intro pages
  induction pages with
  | nil =>
    intro i hits h j
    simp only [scanFrom, Except.ok.injEq] at h
    subst h
    simp
  | cons page rest ih =>
    intro i hits h j
    rw [scanFrom_cons] at h
    cases hext : page.extract_text with
    | error e => rw [hext] at h; cases h
    | ok t =>
      rw [hext] at h
      cases hrec : scanFrom patterns uo av (i + 1) rest with
      | error e => rw [hrec] at h; cases h
      | ok hits2 =>
        rw [hrec] at h
        have hh := Except.ok.inj h
        have hsplit :
            (∃ k pg, (page :: rest).get? k = some pg ∧ j = i + k ∧
              pageHitB patterns uo av pg = true) ↔
            ((j = i ∧ pageHitB patterns uo av page = true) ∨
             (∃ k pg, rest.get? k = some pg ∧ j = (i + 1) + k ∧
               pageHitB patterns uo av pg = true)) := by
          constructor
          · rintro ⟨k, pg, hget, hj, hp⟩
            cases k with
            | zero =>
              left
              simp only [List.get?_cons_zero, Option.some.injEq] at hget
              subst hget
              exact ⟨by omega, hp⟩
            | succ k2 =>
              right
              exact ⟨k2, pg, by simpa using hget, by omega, hp⟩
          · rintro (⟨hj, hp⟩ | ⟨k2, pg, hget, hj, hp⟩)
            · exact ⟨0, page, rfl, by omega, hp⟩
            · exact ⟨k2 + 1, pg, by simpa using hget, by omega, hp⟩
        rw [hsplit]
        by_cases hp : pageHitB patterns uo av page
        · rw [if_pos hp] at hh
          subst hh
          rw [List.mem_cons, ih (i + 1) hits2 hrec j]
          constructor
          · rintro (hji | hr)
            · exact Or.inl ⟨hji, hp⟩
            · exact Or.inr hr
          · rintro (⟨hji, _⟩ | hr)
            · exact Or.inl hji
            · exact Or.inr hr
        · rw [if_neg hp] at hh
          subst hh
          rw [ih (i + 1) hits2 hrec j]
          constructor
          · intro hr; exact Or.inr hr
          · rintro (⟨_, hcontra⟩ | hr)
            · exact absurd hcontra hp
            · exact hr

/-- The scan finishes without raising exactly when every scanned page's
native extraction finishes without raising; OCR failures never abort it. -/
theorem scanFrom_okE (patterns : List String) (uo av : Bool) :
    ∀ (pages : List Page) (i : Nat),
      okE (scanFrom patterns uo av i pages) =
        pages.all (fun pg => okE pg.extract_text) := by
  intro pages
  induction pages with
  | nil => intro i; simp [scanFrom, okE]
  | cons page rest ih =>
    intro i
    rw [scanFrom_cons]
    cases hext : page.extract_text with
    | error e => simp [okE, hext]
    | ok t =>
      cases hrec : scanFrom patterns uo av (i + 1) rest with
      | error e =>
        have := ih (i + 1)
        rw [hrec] at this
        simp only [okE] at this
        simp [okE, hext, ← this]
      | ok hits2 =>
        have := ih (i + 1)
        rw [hrec] at this
        simp only [okE] at this
        simp [okE, hext, ← this]

/-- With the OCR capability unavailable, the scan ignores `use_ocr`. -/
theorem scanFrom_av_false (patterns : List String) (uo : Bool) :
    ∀ (pages : List Page) (i : Nat),
      scanFrom patterns uo false i pages =
        scanFrom patterns false false i pages := by
  intro pages
  induction pages with
  | nil => intro i; rfl
  | cons page rest ih =>
    intro i
    cases hext : page.extract_text with
    | error e => simp [scanFrom, hext]
    | ok t => simp [scanFrom, hext, Bool.and_false, ih]

/-- With an empty pattern list, no page can match from either source, so a
scan over pages whose native extraction succeeds returns the empty list. -/
theorem scanFrom_nil_patterns (uo av : Bool) :
    ∀ (pages : List Page) (i : Nat),
      (∀ pg ∈ pages, okE pg.extract_text = true) →
      scanFrom [] uo av i pages = Except.ok [] := by
  intro pages
  induction pages with
  | nil => intro i _; rfl
  | cons page rest ih =>
    intro i hok
    have hokh := hok page (List.mem_cons_self page rest)
    cases hext : page.extract_text with
    | error e => rw [hext] at hokh; simp [okE] at hokh
    | ok t =>
      have hrest : ∀ pg ∈ rest, okE pg.extract_text = true :=
        fun pg hpg => hok pg (List.mem_cons_of_mem page hpg)
      cases hoa : uo && av
      · simp [scanFrom, hext, searchAny, hoa, ih i.succ hrest]
      · cases hocr : page.ocr_text with
        | error e2 =>
          simp [scanFrom, hext, searchAny, hoa, hocr, ih i.succ hrest]
        | ok s =>
          simp [scanFrom, hext, searchAny, hoa, hocr, ih i.succ hrest]

/-- Unfolding of the per-page decision into the claim's case analysis. -/
theorem pageHitB_iff (patterns : List String) (uo av : Bool) (page : Page) :
    pageHitB patterns uo av page = true ↔
      ((∃ t, page.extract_text = Except.ok t ∧
          searchAny patterns (t.getD "") = true) ∨
       (uo = true ∧ av = true ∧
        (∃ t, page.extract_text = Except.ok t ∧
          searchAny patterns (t.getD "") = false) ∧
        (∃ s, page.ocr_text = Except.ok s ∧ searchAny patterns s = true))) := by
  cases hext : page.extract_text with
  | error e => simp [pageHitB, hext]
  | ok t =>
    by_cases hnat : searchAny patterns (t.getD "")
    · simp [pageHitB, hext, hnat]
    · cases huo : uo <;> cases hav : av
      · simp [pageHitB, hext, hnat]
      · simp [pageHitB, hext, hnat]
      · simp [pageHitB, hext, hnat]
      · cases hocr : page.ocr_text with
        | error e2 => simp [pageHitB, hext, hnat, hocr]
        | ok s => simp [pageHitB, hext, hnat, hocr]

/-!  Helper lemmas about highlighting.  -/

/-- A sequence is a prefix of itself followed by anything. -/
theorem isPrefixOf_append_self (m r : List Char) :
    List.isPrefixOf m (m ++ r) = true := by
  induction m with
  | nil => simp [List.isPrefixOf]
  | cons c cs ih => simp [List.isPrefixOf, ih]

/-- Unfolding equation of `subAllIC` on the empty text. -/
theorem subAllIC_nil (pat : List Char) :
    subAllIC pat [] = if pat.isEmpty then markText [] else [] := by
  rw [subAllIC.eq_def]

/-- Unfolding equation of `subAllIC` on a non-empty text. -/
theorem subAllIC_cons (pat : List Char) (c : Char) (cs : List Char) :
    subAllIC pat (c :: cs) =
      if isPrefixIC pat (c :: cs) then
        match pat with
        | [] => markText [] ++ c :: subAllIC [] cs
        | _ :: tl =>
          markText ((c :: cs).take pat.length) ++ subAllIC pat (cs.drop tl.length)
      else c :: subAllIC pat cs := by
  rw [subAllIC.eq_def]

/-- A sequence occurs in itself followed by anything. -/
theorem containsSeq_append_self (m r : List Char) :
    containsSeq m (m ++ r) = true := by
  cases m with
  | nil => cases r <;> simp [containsSeq]
  | cons c cs => simp [containsSeq, isPrefixOf_append_self]

/-- Occurrence is preserved by prepending a character. -/
theorem containsSeq_cons (m : List Char) (c : Char) (cs : List Char)
    (h : containsSeq m cs = true) : containsSeq m (c :: cs) = true := by
  simp [containsSeq, h]

/-- If a pattern occurs case-insensitively in a text, the substitution pass
emits the opening emphasis marker somewhere in its output. -/
theorem subAllIC_marks (pat : List Char) :
    ∀ s : List Char, occursIC pat s = true →
      containsSeq "<mark>".toList (subAllIC pat s) = true := by
  intro s
  induction s with
  | nil =>
    intro h
    simp only [occursIC] at h
    rw [subAllIC_nil, if_pos h]
    exact containsSeq_append_self "<mark>".toList "</mark>".toList
  | cons c cs ih =>
    intro h
    by_cases hpre : isPrefixIC pat (c :: cs) = true
    · cases pat with
      | nil =>
        rw [subAllIC_cons, if_pos hpre]
        exact containsSeq_append_self "<mark>".toList _
      | cons p tl =>
        rw [subAllIC_cons, if_pos hpre]
        exact containsSeq_append_self "<mark>".toList _
    · rw [subAllIC_cons, if_neg hpre]
      simp only [occursIC, Bool.or_eq_true] at h
      rcases h with h | h
      · exact absurd h hpre
      · exact containsSeq_cons _ _ _ (ih h)

/-!  Claim theorems.  -/

/-- C1: for every document and every non-empty pattern list, when the page
scan returns a result list, that list of 0-based page indices is strictly
ascending, has no duplicates, and every returned index is below the
document's page count. -/
theorem find_pages_sorted_nodup_bounded (doc : PdfDocument)
    (patterns : List String) (uo av : Bool) (hits : List Nat)
    (hne : patterns ≠ [])
    (h : find_pages_with_keywords doc patterns uo av = Except.ok hits) :
    hits.Pairwise (· < ·) ∧ hits.Nodup ∧ ∀ j ∈ hits, j < doc.pages.length := by
  have hs := scanFrom_sorted patterns uo av doc.pages 0 hits h
  refine ⟨hs, hs.imp (fun hab => Nat.ne_of_lt hab), ?_⟩
  intro j hj
  have hb := scanFrom_bounds patterns uo av doc.pages 0 hits h j hj
  omega

/-- Witness for C1 on the concrete document `docW` with pattern "hello". -/
theorem find_pages_sorted_nodup_bounded_witness : 0 < docW.pages.length :=
  (find_pages_sorted_nodup_bounded docW ["hello"] false false [0]
    (by decide) (by decide)).2.2 0 (by decide)

/-- C2: whenever the scan returns a result list, a page index is in it
exactly when the page exists and either some pattern matched its native text,
or OCR is enabled and available, no pattern matched the native text, the OCR
pipeline succeeded, and some pattern matched the OCR text.  The
characterisation ranges over every index, so every page is visited and the
scan never terminates early on a match. -/
theorem find_pages_membership_iff (doc : PdfDocument) (patterns : List String)
    (uo av : Bool) (hits : List Nat)
    (h : find_pages_with_keywords doc patterns uo av = Except.ok hits) :
    ∀ i, i ∈ hits ↔
      ∃ page, doc.pages.get? i = some page ∧
        ((∃ t, page.extract_text = Except.ok t ∧
            searchAny patterns (t.getD "") = true) ∨
         (uo = true ∧ av = true ∧
          (∃ t, page.extract_text = Except.ok t ∧
            searchAny patterns (t.getD "") = false) ∧
          (∃ s, page.ocr_text = Except.ok s ∧ searchAny patterns s = true))) := by
  intro i
  rw [scanFrom_mem patterns uo av doc.pages 0 hits h i]
  constructor
  · rintro ⟨k, pg, hget, hik, hp⟩
    have hki : k = i := by omega
    subst hki
    exact ⟨pg, hget, (pageHitB_iff patterns uo av pg).mp hp⟩
  · rintro ⟨pg, hget, hp⟩
    exact ⟨i, pg, hget, by omega, (pageHitB_iff patterns uo av pg).mpr hp⟩

/-- Witness for C2 on the concrete document `docW` with pattern "hello". -/
theorem find_pages_membership_iff_witness : (0 : Nat) ∈ ([0] : List Nat) :=
  ((find_pages_membership_iff docW ["hello"] false false [0] (by decide)) 0).mpr
    ⟨pageA, by decide, Or.inl ⟨some "hello world", by decide, by decide⟩⟩

/-- C3 counterexample: on `docBad`, whose first page's native extraction
raises while its second page's native text matches "hello", the claim
predicts the result `[1]`; the scan instead aborts with the exception,
because `page.extract_text()` is called outside any `try`. -/
theorem find_pages_native_exception_aborts :
    find_pages_with_keywords docBad ["hello"] false false = Except.error () := by
  decide

/-- C3 amended: a failure of the OCR pipeline on a page is caught internally
and that page falls back to its native-text match, and such failures never
abort the scan; a failure of native text extraction is not caught: the scan
finishes without raising exactly when every page's native extraction does. -/
theorem find_pages_failure_policy :
    (∀ (doc : PdfDocument) (patterns : List String) (uo av : Bool),
      okE (find_pages_with_keywords doc patterns uo av) =
        doc.pages.all (fun pg => okE pg.extract_text)) ∧
    (∀ (patterns : List String) (uo av : Bool) (page : Page) (t : Option String),
      page.extract_text = Except.ok t → page.ocr_text = Except.error () →
      pageHitB patterns uo av page = searchAny patterns (t.getD "")) := by
  constructor
  · intro doc patterns uo av
    exact scanFrom_okE patterns uo av doc.pages 0
  · intro patterns uo av page t hext hocr
    by_cases hnat : searchAny patterns (t.getD "")
    · simp [pageHitB, hext, hnat]
    · cases hoa : uo && av <;> simp [pageHitB, hext, hnat, hoa, hocr]

/-- Witness for the amended C3 on the concrete page `pageB`, whose OCR
pipeline raises. -/
theorem find_pages_failure_policy_witness :
    pageHitB ["x"] true true pageB = searchAny ["x"] ((some "abc").getD "") :=
  find_pages_failure_policy.2 ["x"] true true pageB (some "abc")
    (by decide) (by decide)

/-- C4: exporting page `p` and reading the produced single-page document
back yields a document with exactly one page whose extracted native text
equals the native text extracted from page `p` of the source document. -/
theorem export_single_page_roundtrip (doc : PdfDocument) (p : Nat)
    (page : Page) (h : doc.pages[p]? = some page) :
    export_single_page_pdf doc p = Except.ok (PdfDocument.mk [page]) ∧
    (PdfDocument.mk [page]).pages.length = 1 ∧
    extract_page_text (PdfDocument.mk [page]) 0 false false =
      extract_page_text doc p false false := by
  refine ⟨by simp [export_single_page_pdf, h], rfl, ?_⟩
  simp [extract_page_text, h]

/-- Witness for C4 on page 0 of the concrete document `docW`. -/
theorem export_single_page_roundtrip_witness :
    extract_page_text (PdfDocument.mk [pageA]) 0 false false =
      extract_page_text docW 0 false false :=
  (export_single_page_roundtrip docW 0 pageA (by decide)).2.2

/-- C5: when the pattern text is empty after trimming blank lines, the
submitted handler stops with the validation error; `SubmitOutcome.ran` is the
only outcome that invokes `find_pages_with_keywords`, so no scan is performed
for that request. -/
theorem submitted_empty_patterns_validation (doc : PdfDocument)
    (pattern_text : String) (uo av : Bool)
    (h : parse_patterns pattern_text = []) :
    submitted (some doc) pattern_text uo av = SubmitOutcome.errorNoPatterns := by
  simp [submitted, h]

/-- Witness for C5 on blank pattern text. -/
theorem submitted_empty_patterns_validation_witness :
    submitted (some docW) "  \n\n " false false = SubmitOutcome.errorNoPatterns :=
  submitted_empty_patterns_validation docW "  \n\n " false false (by decide)

/-- C6: with the OCR capability unavailable, the scan with `use_ocr = true`
returns exactly the result of `use_ocr = false`, the preview function
returns empty bytes, and the artifact bundle stores no image. -/
theorem ocr_unavailable_fallback :
    (∀ (doc : PdfDocument) (patterns : List String) (uo : Bool),
        find_pages_with_keywords doc patterns uo false =
          find_pages_with_keywords doc patterns false false) ∧
    (∀ (doc : PdfDocument) (p : Nat),
        page_image_bytes doc p false = Except.ok []) ∧
    (∀ (doc : PdfDocument) (p : Nat) (uo : Bool),
        (page_files_entry doc p uo false).img = none) := by
  refine ⟨?_, ?_, ?_⟩
  · intro doc patterns uo
    exact scanFrom_av_false patterns uo doc.pages 0
  · intro doc p
    simp [page_image_bytes]
  · intro doc p uo
    simp [page_files_entry]

/-- C7: highlighting applies the patterns sequentially in list order — the
empty list leaves only the newline rewriting, and a head pattern first
rewrites the text via its substitution pass, whose output the remaining
patterns then rewrite — and a pattern that matches the text leaves an
emphasis marker in the pass's output.  `highlight_html` is a pure function
of `(text, patterns)`, so two runs with the same arguments produce identical
markup. -/
theorem highlight_html_sequential :
    (∀ text : String, highlight_html text [] = text.replace "\n" "<br/>") ∧
    (∀ (text pat : String) (ps : List String),
        highlight_html text (pat :: ps) =
          highlight_html (re_sub_mark pat text) ps) ∧
    (∀ (pat text : String), re_search pat text = true →
        containsSeq "<mark>".toList (re_sub_mark pat text).toList = true) := by
  refine ⟨fun text => rfl, fun text pat ps => rfl, ?_⟩
  intro pat text h
  exact subAllIC_marks pat.toList text.toList h

/-- Witness for C7: the case-insensitive pattern "B" matches "abc" and its
substitution pass emits the emphasis marker. -/
theorem highlight_html_sequential_witness :
    containsSeq "<mark>".toList (re_sub_mark "B" "abc").toList = true :=
  highlight_html_sequential.2.2 "B" "abc" (by decide)

/-- C8: with `use_ocr` true and OCR available, `extract_page_text` discards
the native text and returns the OCR text whenever the OCR pipeline succeeds
— including the empty string — and returns the native text exactly when
`use_ocr` is false, OCR is unavailable, or the OCR pipeline raises. -/
theorem extract_page_text_ocr_overrides (doc : PdfDocument) (p : Nat)
    (page : Page) (t : Option String)
    (hget : doc.pages[p]? = some page)
    (hext : page.extract_text = Except.ok t) :
    (∀ s : String, page.ocr_text = Except.ok s →
        extract_page_text doc p true true = Except.ok s) ∧
    (page.ocr_text = Except.error () →
        extract_page_text doc p true true = Except.ok (t.getD "")) ∧
    (∀ av : Bool, extract_page_text doc p false av = Except.ok (t.getD "")) ∧
    (∀ uo : Bool, extract_page_text doc p uo false = Except.ok (t.getD "")) := by
  refine ⟨?_, ?_, ?_, ?_⟩
  · intro s hocr
    simp [extract_page_text, hget, hext, hocr]
  · intro hocr
    simp [extract_page_text, hget, hext, hocr]
  · intro av
    simp [extract_page_text, hget, hext]
  · intro uo
    simp [extract_page_text, hget, hext, Bool.and_false]

/-- Witness for C8 on page 0 of `docW`: OCR recognizes nothing, so the
non-empty native text "hello world" is discarded in favour of `""`. -/
theorem extract_page_text_ocr_overrides_witness :
    extract_page_text docW 0 true true = Except.ok "" :=
  (extract_page_text_ocr_overrides docW 0 pageA (some "hello world")
    (by decide) (by decide)).1 "" (by decide)

/-- C9 counterexample: called with an empty pattern list on `docBad`, whose
first page's native extraction raises, the scan does raise instead of
returning the empty list. -/
theorem find_pages_empty_patterns_raises :
    find_pages_with_keywords docBad [] false false = Except.error () := by
  decide

/-- C9 amended: with an empty pattern list the scan returns the empty list
for every document all of whose pages' native extraction succeeds; a native
extraction exception still propagates, exactly as with a non-empty pattern
list. -/
theorem find_pages_empty_patterns_ok_nil (doc : PdfDocument) (uo av : Bool)
    (h : ∀ pg ∈ doc.pages, okE pg.extract_text = true) :
    find_pages_with_keywords doc [] uo av = Except.ok [] :=
  scanFrom_nil_patterns uo av doc.pages 0 h

/-- Witness for the amended C9 on the concrete document `docW`. -/
theorem find_pages_empty_patterns_ok_nil_witness :
    find_pages_with_keywords docW [] true true = Except.ok [] :=
  find_pages_empty_patterns_ok_nil docW true true (by decide)

/-- C10: `page_image_bytes` returns empty bytes without raising whenever the
OCR capability is unavailable; when it is available there is no exception
handling, so a rasterization failure propagates to the caller. -/
theorem page_image_bytes_policy (doc : PdfDocument) (p : Nat) (page : Page)
    (hget : doc.pages[p]? = some page) :
    page_image_bytes doc p false = Except.ok [] ∧
    (page.images = Except.error () →
      page_image_bytes doc p true = Except.error ()) := by
  constructor
  · simp [page_image_bytes]
  · intro himg
    simp [page_image_bytes, hget, himg]

/-- Witness for C10 on page 0 of `docBad`, whose rasterization raises. -/
theorem page_image_bytes_policy_witness :
    page_image_bytes docBad 0 true = Except.error () :=
  (page_image_bytes_policy docBad 0 pageBad (by decide)).2 (by decide)

end BadDoctor
